import Mathlib

/-!
Verification of the single-quote-keys rewrite engine.

This development shallowly embeds the core of the repository:

* `src/sqk/strings.py` — quote-conversion primitives over raw literal tokens,
* `src/sqk/transformer.py` — the libcst transformer (default textual pass and
  context-override pass),
* `src/sqk/processor.py` — `transform_code`.

Representation choices:

* Python strings (both source text and decoded string values) are lists of
  Unicode code points, `PyStr := List Nat`.  This keeps lone surrogates
  representable, which Python `str` allows and which matters for the
  `json.dumps` surrogate-pair behaviour.
* `ast.literal_eval`, `repr` and `json.dumps` are standard-library functions
  modelled from their documented behaviour on string literals (they are not
  part of the repository).  The evaluator `literalEval` is a state machine
  over the token; it supports the whole escape grammar except `\N{...}`
  named escapes (treated as undecodable) and it rejects code points at or
  above 0x110000 (such tokens cannot arise from a real Python source).
  The `repr` model escapes every non-ASCII character (CPython keeps
  printable non-ASCII raw); this changes only the surface spelling of
  rewritten tokens, never their decoded value, because the evaluator
  accepts both spellings.
* libcst facts used by the embedding, established from the libcst sources:
  `CSTNode.__eq__`/`__hash__` are identity-based, `_visit_and_replace_children`
  always constructs fresh node objects, and `get_metadata(PositionProvider, n)`
  raises `KeyError` for any node that is not in the metadata mapping of the
  original parsed tree.  Consequently every node reaching `_maybe_requote`
  during a `MetadataWrapper.visit` is a fresh object; the embedding records
  this by rebuilding every visited node with `endLine := none`.
* A source text is identified with its parsed module; `serializeModule`
  plays the role of `Module.code` (libcst preserves all trivia, the model
  uses the canonical trivia of the concrete examples).
-/

/-- Python strings as lists of Unicode code points. -/
abbrev PyStr := List Nat

/-- Value of a Python string or bytes literal, as returned by the model of
`ast.literal_eval` on literal tokens. -/
inductive PyVal where
  | str (v : PyStr)
  | bytes (v : PyStr)
deriving DecidableEq

/-- Errors of the embedded transformer.  `typeError` models the `TypeError`
CPython raises for `"'" in b` when `b` is a bytes object. -/
inductive TErr where
  | typeError
deriving DecidableEq

/-- Lowercase an ASCII letter code point, the model of `str.lower` on the
characters appearing in literal prefixes. -/
def lowerChar (c : Nat) : Nat := if 65 ≤ c && c ≤ 90 then c + 32 else c

/-- Model of `sqk.strings._split_prefix_and_quoting`: split a raw literal
token into the prefix (everything before the first quote character) and the
rest. -/
def splitPfxAndQuoting : PyStr → PyStr × PyStr
  | [] => ([], [])
  | c :: rest =>
    if c = 39 || c = 34 then ([], c :: rest)
    else
      let p := splitPfxAndQuoting rest
      (c :: p.1, p.2)

/-- Model of `sqk.strings.ParsedStringPrefix` (field `rawPfx` is the
source's `raw_prefix`). -/
structure ParsedStrPfx where
  has_raw : Bool
  has_bytes : Bool
  has_unicode : Bool
  rawPfx : PyStr
deriving DecidableEq

/-- Model of `sqk.strings.parse_prefix`. -/
def parsePfx (text : PyStr) : ParsedStrPfx :=
  let pr := splitPfxAndQuoting text
  let lower := pr.1.map lowerChar
  ⟨lower.contains 114, lower.contains 98, lower.contains 117, pr.1⟩

/-- Model of `sqk.strings.is_triple_quoted`. -/
def isTripleQuoted (text : PyStr) : Bool :=
  let rest := (splitPfxAndQuoting text).2
  [39, 39, 39].isPrefixOf rest || [34, 34, 34].isPrefixOf rest

/-- Model of `sqk.strings.is_single_quoted`. -/
def isSingleQuoted (text : PyStr) : Bool :=
  let rest := (splitPfxAndQuoting text).2
  !isTripleQuoted text && [39].isPrefixOf rest

/-- Hexadecimal digit value of a code point, accepting both cases. -/
def hexVal (c : Nat) : Option Nat :=
  if 48 ≤ c && c ≤ 57 then some (c - 48)
  else if 97 ≤ c && c ≤ 102 then some (c - 87)
  else if 65 ≤ c && c ≤ 70 then some (c - 55)
  else none

/-- State of the literal-body decoder: scanning normally, after a backslash,
inside a fixed-width hex escape, inside an octal escape, or after a run of
quote characters in a triple-quoted literal. -/
inductive DecSt where
  | norm
  | esc
  | hexSt (need : Nat) (acc : Nat)
  | octSt (len : Nat) (acc : Nat)
  | quoSt (count : Nat)
deriving DecidableEq

/-- Decoder for the body of a Python string or bytes literal (the model of
the literal-evaluation part of `ast.literal_eval`).  The input list is the
token text after the opening quote(s); the closing quote(s) must terminate
the list.  `raw`, `bts` and `triple` describe the literal category, `q` is
the quote code point. -/
def decodeLoop (raw bts triple : Bool) (q : Nat) : DecSt → List Nat → Option PyStr
  | .norm, [] => none
  | .norm, c :: rest =>
    if c = q then
      if triple then decodeLoop raw bts triple q (.quoSt 1) rest
      else match rest with | [] => some [] | _ :: _ => none
    else if c = 92 then decodeLoop raw bts triple q .esc rest
    else if c = 10 && !triple then none
    else if bts && 127 < c then none
    else if 1114112 ≤ c then none
    else (c :: ·) <$> decodeLoop raw bts triple q .norm rest
  | .esc, [] => none
  | .esc, c :: rest =>
    if raw then
      -- raw literals keep the backslash and the following character verbatim
      if bts && 127 < c then none
      else if 1114112 ≤ c then none
      else (fun v => 92 :: c :: v) <$> decodeLoop raw bts triple q .norm rest
    else if c = 110 then (10 :: ·) <$> decodeLoop raw bts triple q .norm rest
    else if c = 116 then (9 :: ·) <$> decodeLoop raw bts triple q .norm rest
    else if c = 114 then (13 :: ·) <$> decodeLoop raw bts triple q .norm rest
    else if c = 97 then (7 :: ·) <$> decodeLoop raw bts triple q .norm rest
    else if c = 98 then (8 :: ·) <$> decodeLoop raw bts triple q .norm rest
    else if c = 102 then (12 :: ·) <$> decodeLoop raw bts triple q .norm rest
    else if c = 118 then (11 :: ·) <$> decodeLoop raw bts triple q .norm rest
    else if c = 39 then (39 :: ·) <$> decodeLoop raw bts triple q .norm rest
    else if c = 34 then (34 :: ·) <$> decodeLoop raw bts triple q .norm rest
    else if c = 92 then (92 :: ·) <$> decodeLoop raw bts triple q .norm rest
    else if c = 10 then decodeLoop raw bts triple q .norm rest
    else if 48 ≤ c && c ≤ 55 then decodeLoop raw bts triple q (.octSt 1 (c - 48)) rest
    else if c = 120 then decodeLoop raw bts triple q (.hexSt 2 0) rest
    else if !bts && c = 117 then decodeLoop raw bts triple q (.hexSt 4 0) rest
    else if !bts && c = 85 then decodeLoop raw bts triple q (.hexSt 8 0) rest
    else if !bts && c = 78 then none
    else if bts && 127 < c then none
    else if 1114112 ≤ c then none
    else (fun v => 92 :: c :: v) <$> decodeLoop raw bts triple q .norm rest
  | .hexSt _ _, [] => none
  | .hexSt need acc, c :: rest =>
    match hexVal c with
    | none => none
    | some h =>
      if need = 1 then
        let w := acc * 16 + h
        if bts && 255 < w then none
        else if 1114112 ≤ w then none
        else (w :: ·) <$> decodeLoop raw bts triple q .norm rest
      else decodeLoop raw bts triple q (.hexSt (need - 1) (acc * 16 + h)) rest
  | .octSt _ _, [] => none
  | .octSt len acc, c :: rest =>
    if 48 ≤ c && c ≤ 55 && len < 3 then
      decodeLoop raw bts triple q (.octSt (len + 1) (acc * 8 + (c - 48))) rest
    else if bts && 255 < acc then none
    else if c = q then
      if triple then (acc :: ·) <$> decodeLoop raw bts triple q (.quoSt 1) rest
      else match rest with | [] => some [acc] | _ :: _ => none
    else if c = 92 then (acc :: ·) <$> decodeLoop raw bts triple q .esc rest
    else if c = 10 && !triple then none
    else if bts && 127 < c then none
    else if 1114112 ≤ c then none
    else (fun v => acc :: c :: v) <$> decodeLoop raw bts triple q .norm rest
  | .quoSt _, [] => none
  | .quoSt n, c :: rest =>
    if c = q then
      if n = 2 then match rest with | [] => some [] | _ :: _ => none
      else decodeLoop raw bts triple q (.quoSt (n + 1)) rest
    else if c = 92 then (List.replicate n q ++ ·) <$> decodeLoop raw bts triple q .esc rest
    else if bts && 127 < c then none
    else if 1114112 ≤ c then none
    else (fun v => List.replicate n q ++ c :: v) <$> decodeLoop raw bts triple q .norm rest

/-- Valid lowercased string-literal prefixes, as in `SimpleString._validate`
of libcst and the Python grammar restricted to non-formatted literals. -/
def validPfx (lower : List Nat) : Bool :=
  lower = [] || lower = [114] || lower = [117] || lower = [98] ||
    lower = [98, 114] || lower = [114, 98]

/-- Model of `ast.literal_eval` restricted to a single string or bytes
literal token, as applied to `cst.SimpleString.value` by the repository.
Returns `none` where CPython raises `SyntaxError` or `ValueError`
(the exceptions the repository catches around its calls). -/
def literalEval (token : PyStr) : Option PyVal :=
  let ps := splitPfxAndQuoting token
  let lower := ps.1.map lowerChar
  if !validPfx lower then none
  else
    let raw := lower.contains 114
    let bts := lower.contains 98
    let wrap : PyStr → PyVal := fun v => if bts then .bytes v else .str v
    match ps.2 with
    | [] => none
    | q :: body =>
      match body with
      | b1 :: b2 :: bodyRest =>
        if b1 = q && b2 = q then wrap <$> decodeLoop raw bts true q .norm bodyRest
        else wrap <$> decodeLoop raw bts false q .norm body
      | _ => wrap <$> decodeLoop raw bts false q .norm body

/-- Lowercase hexadecimal digit for a value below 16. -/
def hexDig (n : Nat) : Nat := if n < 10 then 48 + n else 87 + n

/-- Two lowercase hex digits of a value below 0x100. -/
def hex2 (n : Nat) : PyStr := [hexDig (n / 16 % 16), hexDig (n % 16)]

/-- Four lowercase hex digits of a value below 0x10000. -/
def hex4 (n : Nat) : PyStr :=
  [hexDig (n / 4096 % 16), hexDig (n / 256 % 16), hexDig (n / 16 % 16), hexDig (n % 16)]

/-- Eight lowercase hex digits of a value below 0x100000000. -/
def hex8 (n : Nat) : PyStr := hex4 (n / 65536) ++ hex4 (n % 65536)

/-- Quote character chosen by CPython `repr` for a string: a single quote,
unless the value contains a single quote and no double quote. -/
def pyReprQuote (v : PyStr) : Nat :=
  if v.contains 39 && !v.contains 34 then 34 else 39

/-- Per-character encoding of the CPython `repr` of a string under quote
character `q`.  The model escapes every non-ASCII character with
`\xhh`, `\uxxxx` or `\Uxxxxxxxx` (CPython keeps printable non-ASCII
characters raw; the decoded value is the same either way). -/
def pyReprEsc (q c : Nat) : PyStr :=
  if c = 92 then [92, 92]
  else if c = q then [92, q]
  else if c = 10 then [92, 110]
  else if c = 13 then [92, 114]
  else if c = 9 then [92, 116]
  else if 32 ≤ c && c ≤ 126 then [c]
  else if c < 256 then 92 :: 120 :: hex2 c
  else if c < 65536 then 92 :: 117 :: hex4 c
  else 92 :: 85 :: hex8 c

/-- Model of CPython `repr` on a string value. -/
def pyRepr (v : PyStr) : PyStr :=
  let q := pyReprQuote v
  q :: v.flatMap (pyReprEsc q) ++ [q]

/-- Per-character encoding of `json.dumps` with its default
`ensure_ascii=True`: ASCII printables raw (except the quote and the
backslash), named escapes, `\uxxxx` for other BMP characters, and a
UTF-16 surrogate pair of `\uxxxx` escapes for astral characters. -/
def jsonEsc (c : Nat) : PyStr :=
  if c = 34 then [92, 34]
  else if c = 92 then [92, 92]
  else if c = 8 then [92, 98]
  else if c = 9 then [92, 116]
  else if c = 10 then [92, 110]
  else if c = 12 then [92, 102]
  else if c = 13 then [92, 114]
  else if 32 ≤ c && c ≤ 126 then [c]
  else if c < 65536 then 92 :: 117 :: hex4 c
  else
    92 :: 117 :: hex4 (55296 + (c - 65536) / 1024) ++
      92 :: 117 :: hex4 (56320 + (c - 65536) % 1024)

/-- Model of `json.dumps` on a string value. -/
def jsonDumps (v : PyStr) : PyStr := 34 :: v.flatMap jsonEsc ++ [34]

/-- UTF-16 translation of one code point: itself if in the BMP, else the
surrogate pair.  Evaluating the `json.dumps` encoding of a value yields its
`surrStr` image. -/
def surrChar (c : Nat) : PyStr :=
  if c < 65536 then [c]
  else [55296 + (c - 65536) / 1024, 56320 + (c - 65536) % 1024]

/-- UTF-16 translation of a string value, code point by code point. -/
def surrStr (v : PyStr) : PyStr := v.flatMap surrChar

/-- Model of the `kept` prefix adjustment in `to_single_quoted_string`:
drop every `u`/`U` from a kept prefix when it contains one. -/
def stripU (kept : PyStr) : PyStr :=
  if (kept.map lowerChar).contains 117 then
    (kept.filter (fun c => c ≠ 117)).filter (fun c => c ≠ 85)
  else kept

/-- Model of `sqk.strings.to_single_quoted_string` on the raw token text
(the `cst.SimpleString.value`); `none` is the source's `None`. -/
def toSingleQuotedString (original : PyStr) : Option PyStr :=
  if isSingleQuoted original then none
  else if isTripleQuoted original then none
  else
    let pfx := parsePfx original
    if pfx.has_raw || pfx.has_bytes then none
    else
      match literalEval original with
      | none => none
      | some (.bytes _) => none
      | some (.str value) =>
        let newTok0 := pyRepr value
        let newTok1 :=
          if pfx.has_unicode && decide (pfx.rawPfx = []) then 117 :: newTok0
          else if pfx.has_unicode && decide (pfx.rawPfx ≠ []) then pfx.rawPfx ++ newTok0
          else newTok0
        let newTok :=
          if decide (pfx.rawPfx ≠ []) &&
              !(pfx.has_unicode && decide (pfx.rawPfx ≠ []) &&
                pfx.rawPfx.isPrefixOf newTok1) then
            stripU pfx.rawPfx ++ newTok1
          else newTok1
        if newTok = original then none else some newTok

/-- Model of `sqk.strings.to_double_quoted_string` on the raw token text. -/
def toDoubleQuotedString (original : PyStr) : Option PyStr :=
  if isTripleQuoted original then none
  else
    let pfx := parsePfx original
    if pfx.has_raw || pfx.has_bytes then none
    else
      let rest := (splitPfxAndQuoting original).2
      if [34].isPrefixOf rest && !([34, 34, 34].isPrefixOf rest) then none
      else
        match literalEval original with
        | none => none
        | some (.bytes _) => none
        | some (.str value) =>
          let dq0 := jsonDumps value
          let dq :=
            if pfx.has_unicode && decide (pfx.rawPfx = []) then 117 :: dq0
            else if decide (pfx.rawPfx ≠ []) then pfx.rawPfx ++ dq0
            else dq0
          if dq = original then none else some dq

/-- Model of `QuoteKeysTransformer.leave_SimpleString` at the token level.
CPython evaluates `"'" in value` before branching, which raises `TypeError`
when the literal evaluated to a bytes value; the model returns
`Except.error .typeError` there. -/
def leaveSimpleStringTok (token : PyStr) : Except TErr PyStr :=
  match literalEval token with
  | none => pure ((toDoubleQuotedString token).getD token)
  | some (.bytes _) => .error .typeError
  | some (.str value) =>
    if value.contains 34 && !value.contains 39 then
      pure ((toSingleQuotedString token).getD token)
    else
      pure ((toDoubleQuotedString token).getD token)

/-- Bool-valued substring test, the model of the Python `in` operator on
strings. -/
def containsSub (pat : PyStr) : PyStr → Bool
  | [] => pat.isEmpty
  | c :: rest => pat.isPrefixOf (c :: rest) || containsSub pat rest

/-- The node-local opt-out tag, `sqk.constants.NOQA_TAG`. -/
def noqaTag : PyStr := [113, 117, 111, 116, 101, 45, 107, 101, 121, 115]

/-- The file-wide annotation text hardcoded in
`QuoteKeysTransformer.__init__` (one space after the hash; note that
`sqk.constants.NOQA_PATTERN` spells it without the space and is not what
the transformer consults). -/
def filewideNoqa : PyStr :=
  [35, 32, 110, 111, 113, 97, 58, 32, 113, 117, 111, 116, 101, 45, 107, 101, 121, 115]

def nGetattr : PyStr := [103, 101, 116, 97, 116, 116, 114]
def nHasattr : PyStr := [104, 97, 115, 97, 116, 116, 114]
def nSetattr : PyStr := [115, 101, 116, 97, 116, 116, 114]
def nDelattr : PyStr := [100, 101, 108, 97, 116, 116, 114]
def nGet : PyStr := [103, 101, 116]
def nPop : PyStr := [112, 111, 112]
def nSetdefault : PyStr := [115, 101, 116, 100, 101, 102, 97, 117, 108, 116]
def nAttrgetter : PyStr := [97, 116, 116, 114, 103, 101, 116, 116, 101, 114]
def nItemgetter : PyStr := [105, 116, 101, 109, 103, 101, 116, 116, 101, 114]
def nMethodcaller : PyStr := [109, 101, 116, 104, 111, 100, 99, 97, 108, 108, 101, 114]
def nDict : PyStr := [100, 105, 99, 116]
def nOrderedDict : PyStr := [79, 114, 100, 101, 114, 101, 100, 68, 105, 99, 116]
def nFromkeys : PyStr := [102, 114, 111, 109, 107, 101, 121, 115]
def nGetitem : PyStr := [95, 95, 103, 101, 116, 105, 116, 101, 109, 95, 95]
def nSetitem : PyStr := [95, 95, 115, 101, 116, 105, 116, 101, 109, 95, 95]
def nDunGetattr : PyStr := [95, 95, 103, 101, 116, 97, 116, 116, 114, 95, 95]
def nDunSetattr : PyStr := [95, 95, 115, 101, 116, 97, 116, 116, 114, 95, 95]
def nDunDelattr : PyStr := [95, 95, 100, 101, 108, 97, 116, 116, 114, 95, 95]
def nGetattribute : PyStr :=
  [95, 95, 103, 101, 116, 97, 116, 116, 114, 105, 98, 117, 116, 101, 95, 95]

/-- `sqk.constants.ATTR_FUNCS`: getattr, hasattr, setattr, delattr. -/
def attrFuncs : List PyStr := [nGetattr, nHasattr, nSetattr, nDelattr]

/-- `sqk.constants.MAPPING_FIRST_KEY_METHODS`: get, pop, setdefault. -/
def mappingFirstKeyMethods : List PyStr := [nGet, nPop, nSetdefault]

/-- `sqk.constants.OPERATOR_GETTERS`: attrgetter, itemgetter, methodcaller. -/
def operatorGetters : List PyStr := [nAttrgetter, nItemgetter, nMethodcaller]

/-- The literal set used in `leave_Call` for constructor calls. -/
def dictCtorNames : List PyStr := [nDict, nOrderedDict]

/-- `sqk.constants.FROM_KEYS`. -/
def fromKeysNames : List PyStr := [nFromkeys]

/-- `sqk.constants.DUUNDER_KEY`. -/
def dunderKeyNames : List PyStr := [nGetitem, nSetitem]

/-- `sqk.constants.DUUNDER_ATTR`. -/
def dunderAttrNames : List PyStr := [nDunGetattr, nDunSetattr, nDunDelattr, nGetattribute]

mutual
/-- Embedding of the libcst expression nodes that the transformer
inspects.  `endLine` is `some n` exactly when the node is a key of the
resolved `PositionProvider` metadata mapping (with `n` the end line of its
span); every node freshly constructed during the traversal carries `none`,
because libcst metadata is keyed by object identity and
`_visit_and_replace_children` always builds fresh objects.  Slice-typed
subscript elements, formatted strings, comprehensions and the remaining
expression forms are outside the embedded universe; the transformer treats
them generically (children visited, node rebuilt). -/
inductive Expr where
  | simpleString (token : PyStr) (endLine : Option Nat)
  | name (id : PyStr) (endLine : Option Nat)
  | attributeE (value : Expr) (attr : PyStr) (endLine : Option Nat)
  | call (func : Expr) (args : List Arg) (endLine : Option Nat)
  | dict (elements : List DictElt) (endLine : Option Nat)
  | subscript (value : Expr) (slices : List SubElt) (endLine : Option Nat)
  | tupleE (elements : List Elt) (endLine : Option Nat)
  | listE (elements : List Elt) (endLine : Option Nat)
  | setE (elements : List Elt) (endLine : Option Nat)
  | intLit (text : PyStr) (endLine : Option Nat)

/-- A call argument: `cst.Arg` with its star (empty, `*` or `**`), optional
keyword and value. -/
inductive Arg where
  | mk (star : PyStr) (keyword : Option PyStr) (value : Expr)

/-- A dictionary display element: `cst.DictElement` or
`cst.StarredDictElement`. -/
inductive DictElt where
  | elem (key : Expr) (value : Expr)
  | star (value : Expr)

/-- A subscript element whose slice is a `cst.Index`. -/
inductive SubElt where
  | index (value : Expr)

/-- A sequence element: `cst.Element` or `cst.StarredElement`. -/
inductive Elt where
  | elem (value : Expr)
  | starElem (value : Expr)
end

/-- End line recorded in a node's metadata entry, `none` when the node is
not in the metadata mapping. -/
def Expr.endLineOf : Expr → Option Nat
  | .simpleString _ m => m
  | .name _ m => m
  | .attributeE _ _ m => m
  | .call _ _ m => m
  | .dict _ m => m
  | .subscript _ _ m => m
  | .tupleE _ m => m
  | .listE _ m => m
  | .setE _ m => m
  | .intLit _ m => m

/-- Model of `QuoteKeysTransformer._has_noqa_comment`.  A node outside the
metadata mapping makes `get_metadata` raise `KeyError`, which the source
catches and turns into `False`. -/
def hasNoqaComment (lines : List PyStr) (node : Expr) : Bool :=
  match node.endLineOf with
  | none => false
  | some endLine =>
    let lineNo := max 1 (min lines.length endLine)
    containsSub noqaTag (lines.getD (lineNo - 1) [])

/-- Model of `QuoteKeysTransformer._maybe_requote`.  The first test is the
`_source_has_noqa` flag computed in `__init__`. -/
def maybeRequote (noqa : Bool) (lines : List PyStr) (node s : Expr) : Expr :=
  if noqa || hasNoqaComment lines node || hasNoqaComment lines s then s
  else
    match s with
    | .simpleString tok mt =>
      match toSingleQuotedString tok with
      | some t => .simpleString t none
      | none => .simpleString tok mt
    | t => t

/-- Dotted-name parts collected by the `while isinstance(cur, Attribute)`
walk of `leave_Call`, in source order after the final `reversed`. -/
def dottedBase : Expr → List PyStr
  | .attributeE v a _ => dottedBase v ++ [a]
  | .name i _ => [i]
  | _ => []

/-- The `func_name` computed in `leave_Call`: defined when the callee
matches `m.Name() | m.Attribute()`. -/
def funcName : Expr → Option PyStr
  | .name i m => some (List.intercalate [46] (dottedBase (.name i m)))
  | .attributeE v a m => some (List.intercalate [46] (dottedBase (.attributeE v a m)))
  | _ => none

/-- The model of `func_name.split(".")[-1]`. -/
def lastSegment (s : PyStr) : PyStr := (s.splitOn 46).getLastD []

/-- Truthiness-respecting test `func_name and func_name.split(".")[-1] in st`. -/
def fnMatches (fn : Option PyStr) (st : List PyStr) : Bool :=
  match fn with
  | some s => !s.isEmpty && st.contains (lastSegment s)
  | none => false

def Arg.valueOf : Arg → Expr
  | .mk _ _ v => v

/-- `arg.with_changes(value=v)`. -/
def Arg.withValue : Arg → Expr → Arg
  | .mk st kw _, v => .mk st kw v

/-- Requote `args[i]` in place, the common `updated_args[i] = ...` step of
`leave_Call`. -/
def requoteArgAt (noqa : Bool) (lines : List PyStr) (node : Expr) (args : List Arg)
    (i : Nat) : List Arg :=
  match args.get? i with
  | some a => args.set i (a.withValue (maybeRequote noqa lines node a.valueOf))
  | none => args

/-- Requote the first component of a pair element inside the
`dict([...])`-style branch; the node passed to `_maybe_requote` is the
pair tuple/list itself. -/
def requotePairFirst (noqa : Bool) (lines : List PyStr) (pairNode : Expr)
    (pelts : List Elt) : List Elt :=
  match pelts with
  | [] => []
  | .elem v0 :: rest => .elem (maybeRequote noqa lines pairNode v0) :: rest
  | .starElem v0 :: rest => .starElem (maybeRequote noqa lines pairNode v0) :: rest

/-- One element of the pairs branch of `leave_Call`: pair tuples/lists get
their first component requoted, everything else is kept. -/
def requotePairElt (noqa : Bool) (lines : List PyStr) : Elt → Elt
  | .elem v =>
    match v with
    | .tupleE pelts pm =>
      if pelts.isEmpty then .elem (.tupleE pelts pm)
      else .elem (.tupleE (requotePairFirst noqa lines (.tupleE pelts pm) pelts) none)
    | .listE pelts pm =>
      if pelts.isEmpty then .elem (.listE pelts pm)
      else .elem (.listE (requotePairFirst noqa lines (.listE pelts pm) pelts) none)
    | t => .elem t
  | .starElem v => .starElem v

/-- One element of the `fromkeys` branch of `leave_Call`.  A
`cst.Element` gets its value requoted; a starred element is passed to
`_maybe_requote` itself and, not being a `SimpleString`, comes back
unchanged. -/
def requoteSeqElt (noqa : Bool) (lines : List PyStr) (target : Expr) : Elt → Elt
  | .elem v => .elem (maybeRequote noqa lines target v)
  | .starElem v => .starElem v

/-- Model of `QuoteKeysTransformer.leave_Call` applied to the
already-rebuilt node (the `updated_node` of the source). -/
def leaveCall (noqa : Bool) (lines : List PyStr) (updated : Expr) : Expr :=
  match updated with
  | .call f args m =>
    -- builtins getattr/hasattr/setattr/delattr: second argument
    if fnMatches (funcName f) attrFuncs && 2 ≤ args.length then
      .call f (requoteArgAt noqa lines (.call f args m) args 1) none
    -- mapping methods: first argument of .get/.pop/.setdefault
    else if (match f with
        | .attributeE _ meth _ => mappingFirstKeyMethods.contains meth
        | _ => false) && !args.isEmpty then
      .call f (requoteArgAt noqa lines (.call f args m) args 0) none
    -- operator getters: first argument
    else if fnMatches (funcName f) operatorGetters && !args.isEmpty then
      .call f (requoteArgAt noqa lines (.call f args m) args 0) none
    -- dict/OrderedDict constructors over a dict display or a pair sequence
    else if fnMatches (funcName f) dictCtorNames && !args.isEmpty &&
        (match args.head? with
         | some a =>
           (match a.valueOf with
            | .dict _ _ => true | .listE _ _ => true | .tupleE _ _ => true
            | _ => false)
         | none => false) then
      match args.head? with
      | some a =>
        (match a.valueOf with
         | .dict elts dm =>
           let newElts := elts.map fun elt =>
             match elt with
             | .elem k v => .elem (maybeRequote noqa lines (.dict elts dm) k) v
             | .star v => .star v
           .call f (args.set 0 (a.withValue (.dict newElts none))) none
         | .listE elts lm =>
           .call f (args.set 0 (a.withValue
             (.listE (elts.map (requotePairElt noqa lines)) lm))) none
         | .tupleE elts tm =>
           .call f (args.set 0 (a.withValue
             (.tupleE (elts.map (requotePairElt noqa lines)) tm))) none
         | _ => .call f args m)
      | none => .call f args m
    -- fromkeys over a sequence or set display
    else if (match f with
        | .attributeE _ meth _ => fromKeysNames.contains meth
        | _ => false) && !args.isEmpty &&
        (match args.head? with
         | some a =>
           (match a.valueOf with
            | .listE _ _ => true | .tupleE _ _ => true | .setE _ _ => true
            | _ => false)
         | none => false) then
      match args.head? with
      | some a =>
        (match a.valueOf with
         | .listE elts lm =>
           .call f (args.set 0 (a.withValue
             (.listE (elts.map (requoteSeqElt noqa lines (.listE elts lm))) lm))) none
         | .tupleE elts tm =>
           .call f (args.set 0 (a.withValue
             (.tupleE (elts.map (requoteSeqElt noqa lines (.tupleE elts tm))) tm))) none
         | .setE elts sm =>
           .call f (args.set 0 (a.withValue
             (.setE (elts.map (requoteSeqElt noqa lines (.setE elts sm))) sm))) none
         | _ => .call f args m)
      | none => .call f args m
    -- dunder item access: first argument
    else if (match f with
        | .attributeE _ meth _ => dunderKeyNames.contains meth
        | _ => false) && !args.isEmpty then
      .call f (requoteArgAt noqa lines (.call f args m) args 0) none
    -- dunder attribute access: first string literal among the first two args
    else if (match f with
        | .attributeE _ meth _ => dunderAttrNames.contains meth
        | _ => false) && !args.isEmpty then
      match (args.take 2).findIdx? (fun a =>
          match a.valueOf with | .simpleString _ _ => true | _ => false) with
      | some i => .call f (requoteArgAt noqa lines (.call f args m) args i) none
      | none => .call f args m
    else
      .call f args m
  | e => e

/-- Model of `QuoteKeysTransformer.leave_Dict`. -/
def leaveDict (noqa : Bool) (lines : List PyStr) (updated : Expr) : Expr :=
  match updated with
  | .dict elts m =>
    .dict (elts.map fun elt =>
      match elt with
      | .elem k v => .elem (maybeRequote noqa lines (.dict elts m) k) v
      | .star v => .star v) m
  | e => e

/-- Model of `QuoteKeysTransformer.leave_Subscript`. -/
def leaveSubscript (noqa : Bool) (lines : List PyStr) (updated : Expr) : Expr :=
  match updated with
  | .subscript v slices m =>
    .subscript v (slices.map fun s =>
      match s with
      | .index t => .index (maybeRequote noqa lines (.subscript v slices m) t)) m
  | e => e

mutual
/-- The traversal of `MetadataWrapper.visit` with `QuoteKeysTransformer`:
children first, every node rebuilt fresh (hence `endLine := none`), then
the `leave_*` methods on the rebuilt node. -/
def visitExpr (noqa : Bool) (lines : List PyStr) : Expr → Except TErr Expr
  | .simpleString tok _ => do
    let t ← leaveSimpleStringTok tok
    pure (.simpleString t none)
  | .name i _ => pure (.name i none)
  | .attributeE v a _ => do
    pure (.attributeE (← visitExpr noqa lines v) a none)
  | .call f args _ => do
    let f' ← visitExpr noqa lines f
    let args' ← visitArgs noqa lines args
    pure (leaveCall noqa lines (.call f' args' none))
  | .dict elts _ => do
    pure (leaveDict noqa lines (.dict (← visitDictElts noqa lines elts) none))
  | .subscript v slices _ => do
    pure (leaveSubscript noqa lines
      (.subscript (← visitExpr noqa lines v) (← visitSubElts noqa lines slices) none))
  | .tupleE elts _ => do pure (.tupleE (← visitElts noqa lines elts) none)
  | .listE elts _ => do pure (.listE (← visitElts noqa lines elts) none)
  | .setE elts _ => do pure (.setE (← visitElts noqa lines elts) none)
  | .intLit t _ => pure (.intLit t none)

def visitArgs (noqa : Bool) (lines : List PyStr) : List Arg → Except TErr (List Arg)
  | [] => pure []
  | a :: rest => do pure ((← visitArg noqa lines a) :: (← visitArgs noqa lines rest))

def visitArg (noqa : Bool) (lines : List PyStr) : Arg → Except TErr Arg
  | .mk st kw v => do pure (.mk st kw (← visitExpr noqa lines v))

def visitDictElts (noqa : Bool) (lines : List PyStr) :
    List DictElt → Except TErr (List DictElt)
  | [] => pure []
  | d :: rest => do pure ((← visitDictElt noqa lines d) :: (← visitDictElts noqa lines rest))

def visitDictElt (noqa : Bool) (lines : List PyStr) : DictElt → Except TErr DictElt
  | .elem k v => do pure (.elem (← visitExpr noqa lines k) (← visitExpr noqa lines v))
  | .star v => do pure (.star (← visitExpr noqa lines v))

def visitSubElts (noqa : Bool) (lines : List PyStr) :
    List SubElt → Except TErr (List SubElt)
  | [] => pure []
  | s :: rest => do pure ((← visitSubElt noqa lines s) :: (← visitSubElts noqa lines rest))

def visitSubElt (noqa : Bool) (lines : List PyStr) : SubElt → Except TErr SubElt
  | .index v => do pure (.index (← visitExpr noqa lines v))

def visitElts (noqa : Bool) (lines : List PyStr) : List Elt → Except TErr (List Elt)
  | [] => pure []
  | e :: rest => do pure ((← visitElt noqa lines e) :: (← visitElts noqa lines rest))

def visitElt (noqa : Bool) (lines : List PyStr) : Elt → Except TErr Elt
  | .elem v => do pure (.elem (← visitExpr noqa lines v))
  | .starElem v => do pure (.starElem (← visitExpr noqa lines v))
end

/-- One logical line of a module: an expression statement and its trailing
trivia (inline whitespace and comment). -/
structure StmtLine where
  expr : Expr
  trailing : PyStr

/-- A module as a list of expression-statement lines. -/
abbrev PyModule := List StmtLine

mutual
/-- Canonical serialization of an expression, the model of libcst code
generation restricted to the embedded universe with canonical trivia. -/
def serializeExpr : Expr → PyStr
  | .simpleString tok _ => tok
  | .name i _ => i
  | .attributeE v a _ => serializeExpr v ++ 46 :: a
  | .call f args _ => serializeExpr f ++ 40 :: serializeArgs args ++ [41]
  | .dict elts _ => 123 :: serializeDictElts elts ++ [125]
  | .subscript v slices _ => serializeExpr v ++ 91 :: serializeSubElts slices ++ [93]
  | .tupleE elts _ => 40 :: serializeElts elts ++ [41]
  | .listE elts _ => 91 :: serializeElts elts ++ [93]
  | .setE elts _ => 123 :: serializeElts elts ++ [125]
  | .intLit t _ => t

def serializeArgs : List Arg → PyStr
  | [] => []
  | [a] => serializeArg a
  | a :: b :: rest => serializeArg a ++ 44 :: 32 :: serializeArgs (b :: rest)

def serializeArg : Arg → PyStr
  | .mk st kw v =>
    st ++ (match kw with | some k => k ++ [61] | none => []) ++ serializeExpr v

def serializeDictElts : List DictElt → PyStr
  | [] => []
  | [d] => serializeDictElt d
  | d :: e :: rest => serializeDictElt d ++ 44 :: 32 :: serializeDictElts (e :: rest)

def serializeDictElt : DictElt → PyStr
  | .elem k v => serializeExpr k ++ 58 :: 32 :: serializeExpr v
  | .star v => 42 :: 42 :: serializeExpr v

def serializeSubElts : List SubElt → PyStr
  | [] => []
  | [s] => serializeSubElt s
  | s :: t :: rest => serializeSubElt s ++ 44 :: 32 :: serializeSubElts (t :: rest)

def serializeSubElt : SubElt → PyStr
  | .index v => serializeExpr v

def serializeElts : List Elt → PyStr
  | [] => []
  | [e] => serializeElt e
  | e :: f :: rest => serializeElt e ++ 44 :: 32 :: serializeElts (f :: rest)

def serializeElt : Elt → PyStr
  | .elem v => serializeExpr v
  | .starElem v => 42 :: serializeExpr v
end

/-- Serialization of a module, the model of `Module.code`: one statement
per line, trailing trivia kept, a newline after every statement. -/
def serializeModule : PyModule → PyStr
  | [] => []
  | st :: rest => serializeExpr st.expr ++ st.trailing ++ 10 :: serializeModule rest

/-- Helper of `splitLines`, accumulating the current line reversed. -/
def splitLinesAux (cur : PyStr) : PyStr → List PyStr
  | [] => (match cur with | [] => [] | _ => [cur.reverse])
  | 10 :: rest => cur.reverse :: splitLinesAux [] rest
  | c :: rest => splitLinesAux (c :: cur) rest

/-- Model of `str.splitlines` on texts whose only line break is a
newline (the serializer emits no other break characters). -/
def splitLines (s : PyStr) : List PyStr := splitLinesAux [] s

/-- Transformation of all statement expressions of a module. -/
def transformModule (noqa : Bool) (lines : List PyStr) : PyModule → Except TErr PyModule
  | [] => pure []
  | st :: rest => do
    pure (⟨← visitExpr noqa lines st.expr, st.trailing⟩ :: (← transformModule noqa lines rest))

/-- Model of `transform_code` from `sqk/processor.py`: parse (here: the
module is the parsed form of its serialization), transform, emit, compare.
The `noqa` flag is `__init__`'s `_source_has_noqa`. -/
def transformCode (m : PyModule) : Except TErr (PyModule × Bool) := do
  let code := serializeModule m
  let noqa := containsSub filewideNoqa code
  let lines := splitLines code
  let m' ← transformModule noqa lines m
  let newCode := serializeModule m'
  pure (m', decide (newCode ≠ code))


/-- The token of a string-literal node (empty for other nodes). -/
def Expr.tokenOf : Expr → PyStr
  | .simpleString t _ => t
  | _ => []

/-- The token produced by the single-quote conversion, the original when it
declines. -/
def overrideToken (t : PyStr) : PyStr := (toSingleQuotedString t).getD t

/-- The context-override conversion with no opt-out in effect: force the
single-quote conversion on a string literal, leave anything else. -/
def overrideLit (s : Expr) : Expr :=
  match s with
  | .simpleString tok mt =>
    match toSingleQuotedString tok with
    | some t => .simpleString t none
    | none => .simpleString tok mt
  | t => t

/-- Modelled from the spec, section 4.3 (default textual-preference pass),
for comparison with `leave_SimpleString`: decode the literal value; if it
contains a double quote and no single quote, prefer the single-quoted
conversion; in every other case prefer the double-quoted conversion; if
decoding fails, fall back to the unconditional double-quoting attempt. -/
def specDefaultRule (token : PyStr) : PyStr :=
  match literalEval token with
  | some (.str v) =>
    if v.contains 34 && !v.contains 39 then (toSingleQuotedString token).getD token
    else (toDoubleQuotedString token).getD token
  | _ => (toDoubleQuotedString token).getD token

mutual
/-- Modelled from the spec, sections 4.3 and 4.5: the transformation with
the context-override pass fully suppressed — every string literal gets the
default rule, nothing else changes. -/
def specDefaultExpr : Expr → Expr
  | .simpleString tok _ => .simpleString (specDefaultRule tok) none
  | .name i _ => .name i none
  | .attributeE v a _ => .attributeE (specDefaultExpr v) a none
  | .call f args _ => .call (specDefaultExpr f) (specDefaultArgs args) none
  | .dict elts _ => .dict (specDefaultDictElts elts) none
  | .subscript v slices _ => .subscript (specDefaultExpr v) (specDefaultSubElts slices) none
  | .tupleE elts _ => .tupleE (specDefaultElts elts) none
  | .listE elts _ => .listE (specDefaultElts elts) none
  | .setE elts _ => .setE (specDefaultElts elts) none
  | .intLit t _ => .intLit t none

def specDefaultArgs : List Arg → List Arg
  | [] => []
  | .mk st kw v :: rest => .mk st kw (specDefaultExpr v) :: specDefaultArgs rest

def specDefaultDictElts : List DictElt → List DictElt
  | [] => []
  | .elem k v :: rest => .elem (specDefaultExpr k) (specDefaultExpr v) :: specDefaultDictElts rest
  | .star v :: rest => .star (specDefaultExpr v) :: specDefaultDictElts rest

def specDefaultSubElts : List SubElt → List SubElt
  | [] => []
  | .index v :: rest => .index (specDefaultExpr v) :: specDefaultSubElts rest

def specDefaultElts : List Elt → List Elt
  | [] => []
  | .elem v :: rest => .elem (specDefaultExpr v) :: specDefaultElts rest
  | .starElem v :: rest => .starElem (specDefaultExpr v) :: specDefaultElts rest
end

/-- Modelled from the spec: the whole-module default-only transformation. -/
def specDefaultOnlyModule (m : PyModule) : PyModule :=
  m.map fun st => ⟨specDefaultExpr st.expr, st.trailing⟩

mutual
/-- All string-literal tokens of an expression, in traversal order. -/
def tokensOfExpr : Expr → List PyStr
  | .simpleString tok _ => [tok]
  | .name _ _ => []
  | .attributeE v _ _ => tokensOfExpr v
  | .call f args _ => tokensOfExpr f ++ tokensOfArgs args
  | .dict elts _ => tokensOfDictElts elts
  | .subscript v slices _ => tokensOfExpr v ++ tokensOfSubElts slices
  | .tupleE elts _ => tokensOfElts elts
  | .listE elts _ => tokensOfElts elts
  | .setE elts _ => tokensOfElts elts
  | .intLit _ _ => []

def tokensOfArgs : List Arg → List PyStr
  | [] => []
  | .mk _ _ v :: rest => tokensOfExpr v ++ tokensOfArgs rest

def tokensOfDictElts : List DictElt → List PyStr
  | [] => []
  | .elem k v :: rest => tokensOfExpr k ++ tokensOfExpr v ++ tokensOfDictElts rest
  | .star v :: rest => tokensOfExpr v ++ tokensOfDictElts rest

def tokensOfSubElts : List SubElt → List PyStr
  | [] => []
  | .index v :: rest => tokensOfExpr v ++ tokensOfSubElts rest

def tokensOfElts : List Elt → List PyStr
  | [] => []
  | .elem v :: rest => tokensOfExpr v ++ tokensOfElts rest
  | .starElem v :: rest => tokensOfExpr v ++ tokensOfElts rest
end

/-- All string-literal tokens of a module. -/
def tokensOfModule (m : PyModule) : List PyStr :=
  m.flatMap fun st => tokensOfExpr st.expr

/-- A token is excluded from rewriting when it is raw, bytes or
triple-quoted. -/
def excludedTok (t : PyStr) : Bool :=
  (parsePfx t).has_raw || (parsePfx t).has_bytes || isTripleQuoted t

/-- A token is safe when it does not evaluate to bytes (which would raise in
`leave_SimpleString`) and its decoded value stays in the basic multilingual
plane (so that `json.dumps` re-encoding is value-faithful). -/
def tokenSafe (t : PyStr) : Bool :=
  match literalEval t with
  | some (.str v) => v.all (· < 65536)
  | some (.bytes _) => false
  | none => true

/-- Every literal token of the module is safe. -/
def moduleSafe (m : PyModule) : Bool := (tokensOfModule m).all tokenSafe

mutual
/-- Node and children carry no position metadata: the property of every
node freshly constructed during a traversal. -/
def metaFree : Expr → Bool
  | .simpleString _ m => m.isNone
  | .name _ m => m.isNone
  | .attributeE v _ m => m.isNone && metaFree v
  | .call f args m => m.isNone && metaFree f && metaFreeArgs args
  | .dict elts m => m.isNone && metaFreeDictElts elts
  | .subscript v slices m => m.isNone && metaFree v && metaFreeSubElts slices
  | .tupleE elts m => m.isNone && metaFreeElts elts
  | .listE elts m => m.isNone && metaFreeElts elts
  | .setE elts m => m.isNone && metaFreeElts elts
  | .intLit _ m => m.isNone

def metaFreeArgs : List Arg → Bool
  | [] => true
  | .mk _ _ v :: rest => metaFree v && metaFreeArgs rest

def metaFreeDictElts : List DictElt → Bool
  | [] => true
  | .elem k v :: rest => metaFree k && metaFree v && metaFreeDictElts rest
  | .star v :: rest => metaFree v && metaFreeDictElts rest

def metaFreeSubElts : List SubElt → Bool
  | [] => true
  | .index v :: rest => metaFree v && metaFreeSubElts rest

def metaFreeElts : List Elt → Bool
  | [] => true
  | .elem v :: rest => metaFree v && metaFreeElts rest
  | .starElem v :: rest => metaFree v && metaFreeElts rest
end

/-- The token b"key". -/
def exBytesTok : PyStr := [98, 34, 107, 101, 121, 34]

/-- A one-statement module whose only expression is the bytes literal b"key". -/
def exC1In : PyModule := [⟨.simpleString exBytesTok (some 1), []⟩]

/-- The token with U+1F600 between single quotes. -/
def exAstralTok : PyStr := [39, 128512, 39]

/-- The surrogate-pair token produced for it by json.dumps. -/
def exAstralDq : PyStr := [34, 92, 117, 100, 56, 51, 100, 92, 117, 100, 101, 48, 48, 34]

/-- The single-quoted token whose body is a hex-escaped hash followed by the
tail of the file-wide annotation text. -/
def exC3Tok0 : PyStr := [39, 92, 120, 50, 51, 32, 110, 111, 113, 97, 58, 32, 113, 117, 111, 116, 101, 45, 107, 101, 121, 115, 39]

/-- The single-quoted token spelling the file-wide annotation text. -/
def exC3Tok1 : PyStr := [39, 35, 32, 110, 111, 113, 97, 58, 32, 113, 117, 111, 116, 101, 45, 107, 101, 121, 115, 39]

/-- The double-quoted token spelling the file-wide annotation text. -/
def exC3Tok2 : PyStr := [34, 35, 32, 110, 111, 113, 97, 58, 32, 113, 117, 111, 116, 101, 45, 107, 101, 121, 115, 34]

def nD : PyStr := [100]
def nObj : PyStr := [111, 98, 106]
def lit1 : PyStr := [49]

/-- A module calling d.get on one literal argument, as parsed. -/
def dGetMod (tok : PyStr) (mt : Option Nat) (trailing : PyStr) : PyModule :=
  [⟨.call (.attributeE (.name nD (some 1)) nGet (some 1))
      [.mk [] none (.simpleString tok mt)] (some 1), trailing⟩]

/-- The same call shape as rebuilt by a traversal (no metadata anywhere). -/
def dGetModOut (tok : PyStr) (trailing : PyStr) : PyModule :=
  [⟨.call (.attributeE (.name nD none) nGet none)
      [.mk [] none (.simpleString tok none)] none, trailing⟩]

/-- Input of the idempotence counterexample. -/
def exC3In : PyModule := dGetMod exC3Tok0 (some 1) []

/-- Its first transform. -/
def exC3Mid : PyModule := dGetModOut exC3Tok1 []

/-- Its second transform. -/
def exC3Out : PyModule := dGetModOut exC3Tok2 []

/-- The double-quoted token of the letter a. -/
def exDqA : PyStr := [34, 97, 34]

/-- The single-quoted token of the letter a. -/
def exSqA : PyStr := [39, 97, 39]

/-- Input of the node-local opt-out counterexample: a d.get call whose line
carries the opt-out tag in a trailing comment. -/
def exC6In : PyModule := dGetMod exDqA (some 1) [32, 32, 35, 32, 113, 117, 111, 116, 101, 45, 107, 101, 121, 115]

/-- Its transform: the key argument was nevertheless single-quoted. -/
def exC6Out : PyModule := dGetModOut exSqA [32, 32, 35, 32, 113, 117, 111, 116, 101, 45, 107, 101, 121, 115]

/-- The double-quoted token spelling quote-keys. -/
def exDqTag : PyStr := [34, 113, 117, 111, 116, 101, 45, 107, 101, 121, 115, 34]

/-- The single-quoted token spelling quote-keys. -/
def exSqTag : PyStr := [39, 113, 117, 111, 116, 101, 45, 107, 101, 121, 115, 39]

/-- Input of the tag-in-literal counterexample. -/
def exC10In : PyModule := dGetMod exDqTag (some 1) []

/-- Its transform. -/
def exC10Out : PyModule := dGetModOut exSqTag []

/-- The token b"x". -/
def exBytesX : PyStr := [98, 34, 120, 34]

/-- The double-quoted token of the word key. -/
def exDqKey : PyStr := [34, 107, 101, 121, 34]

/-- The single-quoted token of the word key. -/
def exSqKey : PyStr := [39, 107, 101, 121, 39]

/-- A module calling hasattr on obj and one literal argument, as parsed. -/
def hasattrMod (tok : PyStr) (mt : Option Nat) (trailing : PyStr) : PyModule :=
  [⟨.call (.name nHasattr (some 1))
      [.mk [] none (.name nObj (some 1)), .mk [] none (.simpleString tok mt)]
      (some 1), trailing⟩]

/-- The same call shape as rebuilt by a traversal. -/
def hasattrModOut (tok : PyStr) (trailing : PyStr) : PyModule :=
  [⟨.call (.name nHasattr none)
      [.mk [] none (.name nObj none), .mk [] none (.simpleString tok none)]
      none, trailing⟩]

/-- The spec scenario input with a double-quoted key argument. -/
def exC8In : PyModule := hasattrMod exDqKey (some 1) []

/-- Its transform with the argument single-quoted. -/
def exC8Out : PyModule := hasattrModOut exSqKey []

/-- The raw token r"a". -/
def exRawTok : PyStr := [114, 34, 97, 34]

/-- The raw-literal scenario input. -/
def exC4In : PyModule := hasattrMod exRawTok (some 1) []

/-- The raw-literal scenario output, rebuilt fresh and unchanged. -/
def exC4Out : PyModule := hasattrModOut exRawTok []

/-- The file-wide annotation scenario input: the trailing comment carries
the exact annotation text. -/
def exC5In : PyModule := hasattrMod exDqKey (some 1) [32, 32, 35, 32, 110, 111, 113, 97, 58, 32, 113, 117, 111, 116, 101, 45, 107, 101, 121, 115]

/-- Its output: rebuilt fresh, the key argument left double-quoted. -/
def exC5Out : PyModule := hasattrModOut exDqKey [32, 32, 35, 32, 110, 111, 113, 97, 58, 32, 113, 117, 111, 116, 101, 45, 107, 101, 121, 115]

/-- A one-element dict display with a literal key, as parsed. -/
def dictMod (tok : PyStr) (mt : Option Nat) : PyModule :=
  [⟨.dict [.elem (.simpleString tok mt) (.intLit lit1 (some 1))] (some 1), []⟩]

/-- The same dict display as rebuilt by a traversal. -/
def dictModOut (tok : PyStr) : PyModule :=
  [⟨.dict [.elem (.simpleString tok none) (.intLit lit1 none)] none, []⟩]

/-- The spec dict scenario input. -/
def exC9In : PyModule := dictMod exDqA (some 1)

/-- Its transform with the key single-quoted. -/
def exC9Out : PyModule := dictModOut exSqA

/-- A double-quoted token whose value contains a single quote and no double
quote; the repr-canonical form of such a value is double-quoted. -/
def exItsTok : PyStr := [34, 105, 116, 39, 115, 34]


/-!
Theorems.  Helper lemmas come first, then per-claim theorems, witnesses and
counterexamples.  Claim theorems carry their claim id in the doc comment.
-/

theorem maybeRequote_true (lines : List PyStr) (n s : Expr) :
    maybeRequote true lines n s = s := rfl

theorem listMapSelf {α : Type} (l : List α) (g : α → α) (h : ∀ x, g x = x) :
    l.map g = l := by
  induction l with
  | nil => rfl
  | cons a t ih => simp [h, ih]

theorem setGetSelf {α : Type} (l : List α) (i : Nat) (x : α)
    (h : l.get? i = some x) : l.set i x = l := by
  induction l generalizing i with
  | nil => simp at h
  | cons a t ih =>
    cases i with
    | zero => simp_all
    | succ j => simp only [List.get?] at h; simp [ih j h]

theorem withValue_valueOf (a : Arg) : a.withValue a.valueOf = a := by
  cases a; rfl

theorem requoteArgAt_true (lines : List PyStr) (n : Expr) (args : List Arg) (i : Nat) :
    requoteArgAt true lines n args i = args := by
  unfold requoteArgAt
  cases h : args.get? i with
  | none => rfl
  | some a => simp [maybeRequote_true, withValue_valueOf, setGetSelf args i a h]

theorem requotePairElt_true (lines : List PyStr) (x : Elt)
    (h : (match x with | .elem v => metaFree v | .starElem v => metaFree v) = true) :
    requotePairElt true lines x = x := by
  cases x with
  | elem v =>
    cases v <;> try rfl
    case tupleE pelts pm =>
      simp only [metaFree, Bool.and_eq_true, Option.isNone_iff_eq_none] at h
      cases hpe : pelts.isEmpty
      · simp only [requotePairElt, hpe, Bool.false_eq_true, if_false]
        rw [h.1]
        cases pelts with
        | nil => simp [List.isEmpty_nil] at hpe
        | cons p0 prest => cases p0 <;> rfl
      · simp [requotePairElt, hpe]
    case listE pelts pm =>
      simp only [metaFree, Bool.and_eq_true, Option.isNone_iff_eq_none] at h
      cases hpe : pelts.isEmpty
      · simp only [requotePairElt, hpe, Bool.false_eq_true, if_false]
        rw [h.1]
        cases pelts with
        | nil => simp [List.isEmpty_nil] at hpe
        | cons p0 prest => cases p0 <;> rfl
      · simp [requotePairElt, hpe]
  | starElem v => rfl

theorem pairEltsRequote_true (lines : List PyStr) (elts : List Elt)
    (h : metaFreeElts elts = true) :
    elts.map (requotePairElt true lines) = elts := by
  induction elts with
  | nil => rfl
  | cons e rest ih =>
    cases e with
    | elem v =>
      simp only [metaFreeElts, Bool.and_eq_true] at h
      simp [requotePairElt_true lines (.elem v) h.1, ih h.2]
    | starElem v =>
      simp only [metaFreeElts, Bool.and_eq_true] at h
      simp [requotePairElt_true lines (.starElem v) h.1, ih h.2]

theorem headMetaFree (args : List Arg) (a : Arg)
    (hargs : metaFreeArgs args = true) (ha : args.head? = some a) :
    metaFree a.valueOf = true := by
  cases args with
  | nil => simp at ha
  | cons a0 rest =>
    simp only [List.head?, Option.some.injEq] at ha
    subst ha
    cases a0 with
    | mk st kw v =>
      simp only [metaFreeArgs, Bool.and_eq_true] at hargs
      exact hargs.1

theorem headGetSet (args : List Arg) (a : Arg) (ha : args.head? = some a) :
    args.set 0 a = args := by
  cases args with
  | nil => rfl
  | cons a0 rest => simp only [List.head?] at ha; cases ha; rfl

theorem leaveCallTrue_id (lines : List PyStr) (f : Expr) (args : List Arg)
    (h : metaFree (.call f args none) = true) :
    leaveCall true lines (.call f args none) = .call f args none := by
  have hargs : metaFreeArgs args = true := by
    simp only [metaFree, Bool.and_eq_true] at h; exact h.2
  dsimp only [leaveCall]
  split
  · exact congrArg (fun l => Expr.call f l none) (requoteArgAt_true lines _ args 1)
  split
  · exact congrArg (fun l => Expr.call f l none) (requoteArgAt_true lines _ args 0)
  split
  · exact congrArg (fun l => Expr.call f l none) (requoteArgAt_true lines _ args 0)
  split
  · -- dict/OrderedDict branch
    cases ha : args.head? with
    | none => simp [ha]
    | some a =>
      have hmfa : metaFree a.valueOf = true := headMetaFree args a hargs ha
      simp only [ha]
      cases hv : a.valueOf <;> try rfl
      case dict elts dm =>
        dsimp only
        rw [hv] at hmfa
        simp only [metaFree, Bool.and_eq_true, Option.isNone_iff_eq_none] at hmfa
        obtain ⟨hdm, helts⟩ := hmfa
        subst hdm
        have h2 := listMapSelf elts
          (fun elt =>
            match elt with
            | DictElt.elem k v => DictElt.elem (maybeRequote true lines (.dict elts none) k) v
            | DictElt.star v => DictElt.star v)
          (fun x => by cases x <;> rfl)
        rw [h2, ← hv, withValue_valueOf, headGetSet args a ha]
      case listE elts lm =>
        dsimp only
        rw [hv] at hmfa
        simp only [metaFree, Bool.and_eq_true] at hmfa
        rw [pairEltsRequote_true lines elts hmfa.2, ← hv, withValue_valueOf,
          headGetSet args a ha]
      case tupleE elts tm =>
        dsimp only
        rw [hv] at hmfa
        simp only [metaFree, Bool.and_eq_true] at hmfa
        rw [pairEltsRequote_true lines elts hmfa.2, ← hv, withValue_valueOf,
          headGetSet args a ha]
  split
  · -- fromkeys branch
    cases ha : args.head? with
    | none => simp [ha]
    | some a =>
      simp only [ha]
      cases hv : a.valueOf <;> try rfl
      case listE elts lm =>
        dsimp only
        rw [listMapSelf elts (requoteSeqElt true lines (.listE elts lm))
          (fun x => by cases x <;> rfl), ← hv, withValue_valueOf, headGetSet args a ha]
      case tupleE elts tm =>
        dsimp only
        rw [listMapSelf elts (requoteSeqElt true lines (.tupleE elts tm))
          (fun x => by cases x <;> rfl), ← hv, withValue_valueOf, headGetSet args a ha]
      case setE elts sm =>
        dsimp only
        rw [listMapSelf elts (requoteSeqElt true lines (.setE elts sm))
          (fun x => by cases x <;> rfl), ← hv, withValue_valueOf, headGetSet args a ha]
  split
  · exact congrArg (fun l => Expr.call f l none) (requoteArgAt_true lines _ args 0)
  split
  · split
    · exact congrArg (fun l => Expr.call f l none) (requoteArgAt_true lines _ args _)
    · rfl
  · rfl

theorem leaveDictTrue_id (lines : List PyStr) (elts : List DictElt) (m : Option Nat) :
    leaveDict true lines (.dict elts m) = .dict elts m := by
  dsimp only [leaveDict]
  rw [listMapSelf elts _ (fun x => by cases x <;> rfl)]

theorem leaveSubscriptTrue_id (lines : List PyStr) (v : Expr) (slices : List SubElt)
    (m : Option Nat) :
    leaveSubscript true lines (.subscript v slices m) = .subscript v slices m := by
  dsimp only [leaveSubscript]
  rw [listMapSelf slices _ (fun x => by cases x <;> rfl)]

theorem leaveTok_spec (tok t : PyStr) (h : leaveSimpleStringTok tok = .ok t) :
    t = specDefaultRule tok := by
  unfold leaveSimpleStringTok at h
  unfold specDefaultRule
  cases hev : literalEval tok with
  | none => rw [hev] at h; injection h with h2; exact h2.symm
  | some val =>
    cases val with
    | str v =>
      rw [hev] at h
      dsimp only at h ⊢
      by_cases hq : (v.contains 34 && !v.contains 39) = true
      · rw [if_pos hq] at h ⊢; injection h with h2; exact h2.symm
      · rw [if_neg hq] at h ⊢; injection h with h2; exact h2.symm
    | bytes b =>
      rw [hev] at h
      dsimp only at h
      exact absurd h (by simp)

mutual
theorem specDefault_metaFree : ∀ e : Expr, metaFree (specDefaultExpr e) = true
  | .simpleString tok m => rfl
  | .name i m => rfl
  | .attributeE v a m => by
    simp [specDefaultExpr, metaFree, specDefault_metaFree v]
  | .call f args m => by
    simp [specDefaultExpr, metaFree, specDefault_metaFree f, specDefaultArgs_metaFree args]
  | .dict elts m => by
    simp [specDefaultExpr, metaFree, specDefaultDictElts_metaFree elts]
  | .subscript v slices m => by
    simp [specDefaultExpr, metaFree, specDefault_metaFree v, specDefaultSubElts_metaFree slices]
  | .tupleE elts m => by
    simp [specDefaultExpr, metaFree, specDefaultElts_metaFree elts]
  | .listE elts m => by
    simp [specDefaultExpr, metaFree, specDefaultElts_metaFree elts]
  | .setE elts m => by
    simp [specDefaultExpr, metaFree, specDefaultElts_metaFree elts]
  | .intLit t m => rfl

theorem specDefaultArgs_metaFree : ∀ l : List Arg, metaFreeArgs (specDefaultArgs l) = true
  | [] => rfl
  | .mk st kw v :: rest => by
    simp [specDefaultArgs, metaFreeArgs, specDefault_metaFree v, specDefaultArgs_metaFree rest]

theorem specDefaultDictElts_metaFree :
    ∀ l : List DictElt, metaFreeDictElts (specDefaultDictElts l) = true
  | [] => rfl
  | .elem k v :: rest => by
    simp [specDefaultDictElts, metaFreeDictElts, specDefault_metaFree k,
      specDefault_metaFree v, specDefaultDictElts_metaFree rest]
  | .star v :: rest => by
    simp [specDefaultDictElts, metaFreeDictElts, specDefault_metaFree v,
      specDefaultDictElts_metaFree rest]

theorem specDefaultSubElts_metaFree :
    ∀ l : List SubElt, metaFreeSubElts (specDefaultSubElts l) = true
  | [] => rfl
  | .index v :: rest => by
    simp [specDefaultSubElts, metaFreeSubElts, specDefault_metaFree v,
      specDefaultSubElts_metaFree rest]

theorem specDefaultElts_metaFree : ∀ l : List Elt, metaFreeElts (specDefaultElts l) = true
  | [] => rfl
  | .elem v :: rest => by
    simp [specDefaultElts, metaFreeElts, specDefault_metaFree v, specDefaultElts_metaFree rest]
  | .starElem v :: rest => by
    simp [specDefaultElts, metaFreeElts, specDefault_metaFree v, specDefaultElts_metaFree rest]
end

theorem bindOk {α β : Type} (a : α) (g : α → Except TErr β) :
    (Except.ok a >>= g : Except TErr β) = g a := rfl

theorem bindErr {α β : Type} (e : TErr) (g : α → Except TErr β) :
    (Except.error e >>= g : Except TErr β) = .error e := rfl

theorem pureOk {α : Type} (a : α) : (pure a : Except TErr α) = .ok a := rfl

mutual
theorem visitTrue_eq (lines : List PyStr) :
    ∀ (e e' : Expr), visitExpr true lines e = .ok e' → e' = specDefaultExpr e
  | .simpleString tok m, e', h => by
    simp only [visitExpr] at h
    cases h1 : leaveSimpleStringTok tok with
    | error err =>
      rw [h1] at h; simp only [pureOk, bindOk, bindErr] at h; exact Except.noConfusion h
    | ok t =>
      rw [h1] at h
      simp only [pureOk, bindOk] at h
      injection h with h
      rw [← h, leaveTok_spec tok t h1]
      rfl
  | .name i m, e', h => by
    simp only [visitExpr] at h
    rw [pureOk] at h
    injection h with h
    rw [← h]; rfl
  | .attributeE v a m, e', h => by
    simp only [visitExpr] at h
    cases h1 : visitExpr true lines v with
    | error err =>
      rw [h1] at h; simp only [pureOk, bindOk, bindErr] at h; exact Except.noConfusion h
    | ok v' =>
      rw [h1] at h
      simp only [pureOk, bindOk] at h
      injection h with h
      rw [visitTrue_eq lines v v' h1] at h
      rw [← h]; rfl
  | .call f args m, e', h => by
    simp only [visitExpr] at h
    cases h1 : visitExpr true lines f with
    | error err =>
      rw [h1] at h; simp only [pureOk, bindOk, bindErr] at h; exact Except.noConfusion h
    | ok f' =>
      cases h2 : visitArgs true lines args with
      | error err =>
        rw [h1, h2] at h; simp only [pureOk, bindOk, bindErr] at h
        exact Except.noConfusion h
      | ok args' =>
        rw [h1, h2] at h
        simp only [pureOk, bindOk] at h
        injection h with h
        rw [visitTrue_eq lines f f' h1, visitArgsTrue_eq lines args args' h2] at h
        rw [← h]
        rw [leaveCallTrue_id lines (specDefaultExpr f) (specDefaultArgs args) (by
          simp [metaFree, specDefault_metaFree f, specDefaultArgs_metaFree args])]
        rfl
  | .dict elts m, e', h => by
    simp only [visitExpr] at h
    cases h1 : visitDictElts true lines elts with
    | error err =>
      rw [h1] at h; simp only [pureOk, bindOk, bindErr] at h; exact Except.noConfusion h
    | ok elts' =>
      rw [h1] at h
      simp only [pureOk, bindOk] at h
      injection h with h
      rw [visitDictEltsTrue_eq lines elts elts' h1] at h
      rw [← h, leaveDictTrue_id]
      rfl
  | .subscript v slices m, e', h => by
    simp only [visitExpr] at h
    cases h1 : visitExpr true lines v with
    | error err =>
      rw [h1] at h; simp only [pureOk, bindOk, bindErr] at h; exact Except.noConfusion h
    | ok v' =>
      cases h2 : visitSubElts true lines slices with
      | error err =>
        rw [h1, h2] at h; simp only [pureOk, bindOk, bindErr] at h
        exact Except.noConfusion h
      | ok slices' =>
        rw [h1, h2] at h
        simp only [pureOk, bindOk] at h
        injection h with h
        rw [visitTrue_eq lines v v' h1, visitSubEltsTrue_eq lines slices slices' h2] at h
        rw [← h, leaveSubscriptTrue_id]
        rfl
  | .tupleE elts m, e', h => by
    simp only [visitExpr] at h
    cases h1 : visitElts true lines elts with
    | error err =>
      rw [h1] at h; simp only [pureOk, bindOk, bindErr] at h; exact Except.noConfusion h
    | ok elts' =>
      rw [h1] at h
      simp only [pureOk, bindOk] at h
      injection h with h
      rw [visitEltsTrue_eq lines elts elts' h1] at h
      rw [← h]; rfl
  | .listE elts m, e', h => by
    simp only [visitExpr] at h
    cases h1 : visitElts true lines elts with
    | error err =>
      rw [h1] at h; simp only [pureOk, bindOk, bindErr] at h; exact Except.noConfusion h
    | ok elts' =>
      rw [h1] at h
      simp only [pureOk, bindOk] at h
      injection h with h
      rw [visitEltsTrue_eq lines elts elts' h1] at h
      rw [← h]; rfl
  | .setE elts m, e', h => by
    simp only [visitExpr] at h
    cases h1 : visitElts true lines elts with
    | error err =>
      rw [h1] at h; simp only [pureOk, bindOk, bindErr] at h; exact Except.noConfusion h
    | ok elts' =>
      rw [h1] at h
      simp only [pureOk, bindOk] at h
      injection h with h
      rw [visitEltsTrue_eq lines elts elts' h1] at h
      rw [← h]; rfl
  | .intLit t m, e', h => by
    simp only [visitExpr] at h
    rw [pureOk] at h
    injection h with h
    rw [← h]; rfl

theorem visitArgsTrue_eq (lines : List PyStr) :
    ∀ (l : List Arg) l', visitArgs true lines l = .ok l' → l' = specDefaultArgs l
  | [], l', h => by
    simp only [visitArgs] at h
    rw [pureOk] at h
    injection h with h
    rw [← h]; rfl
  | .mk st kw v :: rest, l', h => by
    simp only [visitArgs, visitArg] at h
    cases h1 : visitExpr true lines v with
    | error err =>
      rw [h1] at h; simp only [pureOk, bindOk, bindErr] at h; exact Except.noConfusion h
    | ok v' =>
      cases h2 : visitArgs true lines rest with
      | error err =>
        rw [h1, h2] at h; simp only [pureOk, bindOk, bindErr] at h
        exact Except.noConfusion h
      | ok rest' =>
        rw [h1, h2] at h
        simp only [pureOk, bindOk] at h
        injection h with h
        rw [visitTrue_eq lines v v' h1, visitArgsTrue_eq lines rest rest' h2] at h
        rw [← h]; rfl

theorem visitDictEltsTrue_eq (lines : List PyStr) :
    ∀ (l : List DictElt) l', visitDictElts true lines l = .ok l' → l' = specDefaultDictElts l
  | [], l', h => by
    simp only [visitDictElts] at h
    rw [pureOk] at h
    injection h with h
    rw [← h]; rfl
  | .elem k v :: rest, l', h => by
    simp only [visitDictElts, visitDictElt] at h
    cases h1 : visitExpr true lines k with
    | error err =>
      rw [h1] at h; simp only [pureOk, bindOk, bindErr] at h; exact Except.noConfusion h
    | ok k' =>
      cases h2 : visitExpr true lines v with
      | error err =>
        rw [h1, h2] at h; simp only [pureOk, bindOk, bindErr] at h
        exact Except.noConfusion h
      | ok v' =>
        cases h3 : visitDictElts true lines rest with
        | error err =>
          rw [h1, h2, h3] at h; simp only [pureOk, bindOk, bindErr] at h
          exact Except.noConfusion h
        | ok rest' =>
          rw [h1, h2, h3] at h
          simp only [pureOk, bindOk] at h
          injection h with h
          rw [visitTrue_eq lines k k' h1, visitTrue_eq lines v v' h2,
            visitDictEltsTrue_eq lines rest rest' h3] at h
          rw [← h]; rfl
  | .star v :: rest, l', h => by
    simp only [visitDictElts, visitDictElt] at h
    cases h1 : visitExpr true lines v with
    | error err =>
      rw [h1] at h; simp only [pureOk, bindOk, bindErr] at h; exact Except.noConfusion h
    | ok v' =>
      cases h2 : visitDictElts true lines rest with
      | error err =>
        rw [h1, h2] at h; simp only [pureOk, bindOk, bindErr] at h
        exact Except.noConfusion h
      | ok rest' =>
        rw [h1, h2] at h
        simp only [pureOk, bindOk] at h
        injection h with h
        rw [visitTrue_eq lines v v' h1, visitDictEltsTrue_eq lines rest rest' h2] at h
        rw [← h]; rfl

theorem visitSubEltsTrue_eq (lines : List PyStr) :
    ∀ (l : List SubElt) l', visitSubElts true lines l = .ok l' → l' = specDefaultSubElts l
  | [], l', h => by
    simp only [visitSubElts] at h
    rw [pureOk] at h
    injection h with h
    rw [← h]; rfl
  | .index v :: rest, l', h => by
    simp only [visitSubElts, visitSubElt] at h
    cases h1 : visitExpr true lines v with
    | error err =>
      rw [h1] at h; simp only [pureOk, bindOk, bindErr] at h; exact Except.noConfusion h
    | ok v' =>
      cases h2 : visitSubElts true lines rest with
      | error err =>
        rw [h1, h2] at h; simp only [pureOk, bindOk, bindErr] at h
        exact Except.noConfusion h
      | ok rest' =>
        rw [h1, h2] at h
        simp only [pureOk, bindOk] at h
        injection h with h
        rw [visitTrue_eq lines v v' h1, visitSubEltsTrue_eq lines rest rest' h2] at h
        rw [← h]; rfl

theorem visitEltsTrue_eq (lines : List PyStr) :
    ∀ (l : List Elt) l', visitElts true lines l = .ok l' → l' = specDefaultElts l
  | [], l', h => by
    simp only [visitElts] at h
    rw [pureOk] at h
    injection h with h
    rw [← h]; rfl
  | .elem v :: rest, l', h => by
    simp only [visitElts, visitElt] at h
    cases h1 : visitExpr true lines v with
    | error err =>
      rw [h1] at h; simp only [pureOk, bindOk, bindErr] at h; exact Except.noConfusion h
    | ok v' =>
      cases h2 : visitElts true lines rest with
      | error err =>
        rw [h1, h2] at h; simp only [pureOk, bindOk, bindErr] at h
        exact Except.noConfusion h
      | ok rest' =>
        rw [h1, h2] at h
        simp only [pureOk, bindOk] at h
        injection h with h
        rw [visitTrue_eq lines v v' h1, visitEltsTrue_eq lines rest rest' h2] at h
        rw [← h]; rfl
  | .starElem v :: rest, l', h => by
    simp only [visitElts, visitElt] at h
    cases h1 : visitExpr true lines v with
    | error err =>
      rw [h1] at h; simp only [pureOk, bindOk, bindErr] at h; exact Except.noConfusion h
    | ok v' =>
      cases h2 : visitElts true lines rest with
      | error err =>
        rw [h1, h2] at h; simp only [pureOk, bindOk, bindErr] at h
        exact Except.noConfusion h
      | ok rest' =>
        rw [h1, h2] at h
        simp only [pureOk, bindOk] at h
        injection h with h
        rw [visitTrue_eq lines v v' h1, visitEltsTrue_eq lines rest rest' h2] at h
        rw [← h]; rfl
end

theorem transformTrue_eq (lines : List PyStr) :
    ∀ (m m' : PyModule), transformModule true lines m = .ok m' → m' = specDefaultOnlyModule m
  | [], m', h => by
    simp only [transformModule] at h
    rw [pureOk] at h
    injection h with h
    rw [← h]; rfl
  | st :: rest, m', h => by
    simp only [transformModule] at h
    cases h1 : visitExpr true lines st.expr with
    | error err =>
      rw [h1] at h; simp only [pureOk, bindOk, bindErr] at h; exact Except.noConfusion h
    | ok e' =>
      cases h2 : transformModule true lines rest with
      | error err =>
        rw [h1, h2] at h; simp only [pureOk, bindOk, bindErr] at h
        exact Except.noConfusion h
      | ok rest' =>
        rw [h1, h2] at h
        simp only [pureOk, bindOk] at h
        injection h with h
        rw [visitTrue_eq lines st.expr e' h1, transformTrue_eq lines rest rest' h2] at h
        rw [← h]
        simp [specDefaultOnlyModule]

/-- Claim C5: if the exact file-wide annotation text appears anywhere in the
source, the context-override pass performs no rewrite anywhere in the file,
while the default pass still applies: on success the transformed module is
exactly the default-only transformation of the input. -/
theorem filewide_noqa_forces_default_only (m : PyModule) (m' : PyModule) (b : Bool)
    (hnoqa : containsSub filewideNoqa (serializeModule m) = true)
    (h : transformCode m = .ok (m', b)) : m' = specDefaultOnlyModule m := by
  unfold transformCode at h
  dsimp only at h
  rw [hnoqa] at h
  cases h1 : transformModule true (splitLines (serializeModule m)) m with
  | error err =>
    rw [h1] at h; simp only [pureOk, bindOk, bindErr] at h; exact Except.noConfusion h
  | ok m2 =>
    rw [h1] at h
    simp only [pureOk, bindOk] at h
    injection h with h
    have hm : m2 = m' := congrArg Prod.fst h
    rw [← hm]
    exact transformTrue_eq (splitLines (serializeModule m)) m m2 h1

/-- Witness for C5 at the concrete scenario of the spec: a hasattr call
carrying the file-wide annotation in its trailing comment is not overridden
(and the default pass leaves its double-quoted argument unchanged). -/
theorem filewide_noqa_forces_default_only_witness :
    containsSub filewideNoqa (serializeModule exC5In) = true ∧
    transformCode exC5In = .ok (exC5Out, false) ∧
    exC5Out = specDefaultOnlyModule exC5In :=
  ⟨by decide, rfl, filewide_noqa_forces_default_only exC5In exC5Out false (by decide) rfl⟩


/-- Claim C1: the core raises on some syntactically valid input.  The module
holding the single expression statement with the bytes literal b"key" makes
`leave_SimpleString` evaluate the literal to a bytes object and then raise
`TypeError` at the containment test of a str in a bytes value; `transform_code`
propagates it.  This contradicts the claim, which is the documented contract
(see sections 6 and 7 of the spec); the code, not the claim, is wrong. -/
theorem transformCode_bytes_literal_raises :
    transformCode exC1In = .error .typeError := rfl

/-- Claim C2: value preservation fails for `to_double_quoted_string` on the
single-quoted literal holding U+1F600.  `json.dumps` encodes the astral
character as a UTF-16 surrogate pair of `\uXXXX` escapes, and the new token
evaluates to a two-character string of lone surrogates, not to the original
one-character value.  The conversion primitive contradicts its own docstring
and the spec's invariant. -/
theorem toDoubleQuoted_astral_value_not_preserved :
    toDoubleQuotedString exAstralTok = some exAstralDq ∧
    literalEval exAstralTok = some (.str [128512]) ∧
    literalEval exAstralDq = some (.str [55357, 56832]) ∧
    ([55357, 56832] : PyStr) ≠ [128512] := ⟨rfl, rfl, rfl, by decide⟩

/-- Claim C3, counterexample: the transform is not idempotent.  On the
module for d.get of the literal token holding an escaped hash followed by
the tail of the annotation text, the first transform resolves the escape and
emits a text that newly contains the file-wide annotation; the second run
therefore suppresses the override pass and re-double-quotes the literal,
producing a different text. -/
theorem transformCode_not_idempotent :
    transformCode exC3In = .ok (exC3Mid, true) ∧
    transformCode exC3Mid = .ok (exC3Out, true) ∧
    serializeModule exC3Out ≠ serializeModule exC3Mid := ⟨rfl, rfl, by decide⟩

/-- Claim C6: the node-local opt-out tag is not honored.  The input line
d.get of a double-quoted key with a trailing comment carrying the bare tag
contains the tag substring and not the file-wide annotation text, yet the
override pass still rewrites the key to single quotes: the transformer
queries position metadata with freshly constructed nodes, the lookup raises
`KeyError`, and `_has_noqa_comment` returns False. -/
theorem nodeLocal_tag_not_honored :
    containsSub filewideNoqa (serializeModule exC6In) = false ∧
    containsSub noqaTag ((splitLines (serializeModule exC6In)).getD 0 []) = true ∧
    transformCode exC6In = .ok (exC6Out, true) := ⟨by decide, by decide, rfl⟩

/-- Claim C10: a line containing the tag substring inside a string literal
does not suppress the override either — the claim's example call d.get of
the double-quoted tag itself is converted to single quotes, for the same
reason as in `nodeLocal_tag_not_honored`. -/
theorem tag_inside_literal_not_suppressing :
    containsSub noqaTag ((splitLines (serializeModule exC10In)).getD 0 []) = true ∧
    containsSub filewideNoqa (serializeModule exC10In) = false ∧
    transformCode exC10In = .ok (exC10Out, true) := ⟨by decide, by decide, rfl⟩

/-- Claim C7, counterexample: the default-pass rule is not total over string
literal nodes.  The bytes literal b"x" decodes successfully (so the
decode-failure fallback does not apply), its value contains no double quote,
and the claim then prescribes conversion toward double quotes; the code
instead raises `TypeError` before reaching either branch. -/
theorem leaveSimpleString_bytes_raises :
    literalEval exBytesX = some (.bytes [120]) ∧
    leaveSimpleStringTok exBytesX = .error .typeError := ⟨rfl, rfl⟩

/-- Claim C7, amended: for every string-literal token that does not evaluate
to a bytes value, the default pass returns exactly the spec's rule: prefer
single quotes when the decoded value contains a double quote and no single
quote, prefer double quotes in every other case, and fall back to the
unconditional double-quoting attempt when decoding fails.  The function
consults no opt-out signal (it takes none). -/
theorem leaveSimpleString_default_rule (tok : PyStr)
    (h : ∀ b, literalEval tok ≠ some (.bytes b)) :
    leaveSimpleStringTok tok = .ok (specDefaultRule tok) := by
  unfold leaveSimpleStringTok specDefaultRule
  cases hev : literalEval tok with
  | none => rfl
  | some val =>
    cases val with
    | str v =>
      dsimp only
      by_cases hq : (v.contains 34 && !v.contains 39) = true
      · rw [if_pos hq, if_pos hq]; rfl
      · rw [if_neg hq, if_neg hq]; rfl
    | bytes b => exact absurd hev (h b)

/-- Witness for the amended C7 at the double-quoted token of the word key. -/
theorem leaveSimpleString_default_rule_witness :
    (∀ b, literalEval exDqKey ≠ some (.bytes b)) ∧
    leaveSimpleStringTok exDqKey = .ok (specDefaultRule exDqKey) := by
  have hnb : ∀ b, literalEval exDqKey ≠ some (.bytes b) := by
    intro b hb
    rw [show literalEval exDqKey = some (.str [107, 101, 121]) from rfl] at hb
    injection hb with hb2
    exact PyVal.noConfusion hb2
  exact ⟨hnb, leaveSimpleString_default_rule exDqKey hnb⟩
